import Mathlib

/-!
# Load generator: request executor, metric registration and worker pool

A shallow embedding of `server/pkg/clients/http.go` (package `httpRequest`).

* Calls of `executor.Notify` are recorded, in program order, in the `notified`
  log of the `World`; requests handed to `h.client.Do` are recorded in `sent`.
* What the outside world answers during one call of `do` (the elapsed time and
  the result of the round trip) is an explicit argument, `Net`.
* Library functions whose result depends only on their arguments (the error of
  `http.NewRequest`, `json.Marshal`, `textproto.CanonicalMIMEHeaderKey`) are
  fields of `Env`.
* The goroutines of `Manager` are a step function over an explicit state,
  driven by a schedule of actions. A panic (in `GetRequestHeades`, in
  `wg.Add`, in `wg.Done`) ends the run.
-/

namespace HttpRequest

/-! ## Data model -/

/-- Go's `error`, of which only nil or not nil matters here. -/
abbrev Error := String

/-- Go's `[]byte`; the nil slice and the empty slice are both `[]`. -/
abbrev Bytes := List Nat

/-- Go's `map[string]string`, as the list of its entries in the order in which
a `range` over the map visits them. -/
abbrev Headers := List (String × String)

/-- The metric kinds `metrics.Counter` and `metrics.Histogram`. -/
inductive MetricType where
  | Counter
  | Histogram
deriving DecidableEq, Repr

/-- The struct `metrics.Metric`; the field `Kind` is the Go field `Type`. -/
structure Metric where
  Title : String
  Kind : MetricType
deriving DecidableEq, Repr

/-- The struct `metrics.Graph`. -/
structure Graph where
  Title : String
  Unit : String
  Metrics : List Metric
deriving DecidableEq, Repr

/-- The struct `metrics.Group`. -/
structure Group where
  Name : String
  Graphs : List Graph
deriving DecidableEq, Repr

/-- The anonymous struct of the field `title` of `HttpClient`. -/
structure Titles where
  success : String
  fail : String
  otherFail : String
  latency : String
deriving DecidableEq, Repr

/-- The fields of `http.Transport` and `http.Client` that `Initializer` sets;
`Timeout` is a `time.Duration`, in nanoseconds. -/
structure Client where
  MaxIdleConnsPerHost : Int
  Timeout : Int
deriving DecidableEq, Repr

/-- The struct `HttpClient` with its `client` pointer set, as in every value
`Initializer` returns. On the zero value `HttpClient{}`, whose pointer is nil,
`h.client.Do` panics and no call of `do` completes; that value is not a value
of this type. -/
structure HttpClient where
  reqId : String
  client : Client
  startTime : Int
  title : Titles
deriving DecidableEq, Repr

/-- One call `executor.Notify(name, value)`. -/
structure Notification where
  name : String
  value : Int
deriving DecidableEq, Repr

/-- The request built by `http.NewRequest` and handed to `h.client.Do`:
`method` is its field `Method`, `url` the string its field `URL` was parsed
from, `body` the bytes its body yields, `headers` the fields of its `Header`,
each under its canonical name, in the order in which they were added. -/
structure HttpReq where
  method : String
  url : String
  body : Bytes
  headers : Headers
deriving DecidableEq, Repr

/-- The arguments of one call of `do`. -/
structure DoArgs where
  method : String
  url : String
  body : Bytes
  headers : Headers
deriving DecidableEq, Repr

/-- The part of `http.Response` the program reads: the status code, and what
reading the body to its end yields (the bytes read and the read error). -/
structure Response where
  StatusCode : Int
  Body : Bytes
  ReadErr : Option Error
deriving DecidableEq, Repr

/-- The observable effects of the program, in program order: the calls of
`executor.Notify`, the requests handed to `h.client.Do`, and the arguments of
the calls of `do` (a request attempt, whether or not a request gets built). -/
structure World where
  notified : List Notification
  sent : List HttpReq
  calls : List DoArgs
deriving DecidableEq, Repr

/-- What the outside world answers during one call of `do`: `diff` is
`time.Since(begin)` in nanoseconds, `answer` the result of `h.client.Do(req)`
(net/http returns a response exactly when it returns no error). -/
structure Net where
  diff : Int
  answer : Except Error Response

/-- The payload `conf.PostData`, an `interface{}`: the nil value, a string, or
a value `json.Marshal` rejects (a channel, a function). -/
inductive PostData where
  | null
  | text (s : String)
  | unsupported
deriving DecidableEq, Repr

/-- Library functions determined by their arguments: `NewRequest method url`
is the error of `http.NewRequest(method, url, body)` (`none` when the request
is built), `Marshal` is `json.Marshal`, and `CanonicalMIMEHeaderKey` is the
function of `net/textproto` that `Header.Add` applies to a field name. -/
structure Env where
  NewRequest : String → String → Option Error
  Marshal : PostData → Bytes × Option Error
  CanonicalMIMEHeaderKey : String → String

/-- A Go value held in an `interface{}`, as far as the type assertion
`.(string)` tells values apart: a string, or a value of another type. -/
inductive Value where
  | str (s : String)
  | other
deriving DecidableEq, Repr

/-- The value of `conf.Headers`, passed to `GetRequestHeades` as an
`interface{}`: a value whose kind is not `reflect.Map`, or a map, given by its
entries in the order of `MapKeys`. -/
inductive HeadersValue where
  | notMap
  | map (entries : List (Value × Value))
deriving DecidableEq, Repr

/-- The struct `models.Request` as `Manager` reads it. `Clients` is a Go `int`
(64 bits). -/
structure Models.Request where
  URL : String
  Method : String
  Clients : Int
  Headers : HeadersValue
  PostData : PostData

/-- The empty world: nothing notified, nothing sent, nothing attempted. -/
def World.empty : World := ⟨[], [], []⟩

/-- The call `executor.Notify(name, value)`. -/
def Notify (name : String) (value : Int) (w : World) : World :=
  { w with notified := w.notified ++ [⟨name, value⟩] }

/-- The method `Duration.Microseconds`: nanoseconds divided by 1000, rounded
towards zero. -/
def Microseconds (d : Int) : Int := Int.tdiv d 1000

/-- The conversion `int32(x)` of the low 32 bits of an integer. -/
def wrapInt32 (x : Int) : Int := (x + 2147483648) % 4294967296 - 2147483648

/-- The method `WaitGroup.Add` on a wait group nobody waits on yet, as a
function on its counter. The counter is the signed high 32 bits of the state
word, to which `uint64(delta) << 32` is added; the call panics (`none`) when
the new counter is negative. -/
def WaitGroup.Add (counter delta : Int) : Option Int :=
  let v := wrapInt32 (counter + delta)
  if v < 0 then none else some v

/-- The function `http.NewRequest(method, url, strings.NewReader(string(body)))`:
an empty method stands for GET, and the new request has no header fields. -/
def NewRequest (env : Env) (method url : String) (body : Bytes) : Except Error HttpReq :=
  match env.NewRequest method url with
  | some err => .error err
  | none =>
    .ok { method := if method = "" then "GET" else method, url := url, body := body,
          headers := [] }

/-- The call `req.Header.Add(k, v)`: the value is filed under the canonical
form of the name. -/
def HttpReq.HeaderAdd (env : Env) (req : HttpReq) (k v : String) : HttpReq :=
  { req with headers := req.headers ++ [(env.CanonicalMIMEHeaderKey k, v)] }

/-! ## Initializer -/

/-- The titles `Initializer` stores in the client. -/
def initTitles : Titles :=
  { success := ".http_ok", otherFail := ".http_other_fail", fail := ".http_fail",
    latency := ".latency" }

/-- The local variable `groups` of `Initializer`. -/
def initGroups (title : Titles) (reqId : String) : List Group :=
  let group : Group :=
    { Name := "HTTP (" ++ reqId ++ ")"
      Graphs :=
        [ { Title := "HTTP Response"
            Unit := "N"
            Metrics :=
              [ { Title := title.success, Kind := MetricType.Counter },
                { Title := title.fail, Kind := MetricType.Counter },
                { Title := title.otherFail, Kind := MetricType.Counter } ] },
          { Title := "Latency"
            Unit := "Microsecond"
            Metrics := [ { Title := title.latency, Kind := MetricType.Histogram } ] } ] }
  [group]

/-- The function `Initializer`. `Setup` is `executor.Setup`, returning its
error (`none` for nil). The fields `reqId` and `startTime` keep their zero
values: `Initializer` assigns neither. -/
def Initializer (Setup : List Group → String → Option Error) (reqId : String) :
    HttpClient × Option Error :=
  let title := initTitles
  let groups := initGroups title reqId
  let httpClient : HttpClient :=
    { reqId := "", startTime := 0, title := title
      client := { MaxIdleConnsPerHost := 300, Timeout := 1000000000 * 10 } }
  match Setup groups reqId with
  | some err => (httpClient, some err)
  | none => (httpClient, none)

/-! ## The request executor -/

/-- The deferred function of `do`, run with the final values of `res` and
`err`. -/
def HttpClient.doDeferred (h : HttpClient) (diff : Int) (out : Except Error Response)
    (w : World) : World :=
  let w := Notify h.title.latency (Microseconds diff) w
  match out with
  | .error _ => Notify h.title.otherFail 1 w
  | .ok res =>
    if res.StatusCode ≥ 300 ∨ res.StatusCode < 200 then
      Notify h.title.fail 1 w
    else
      Notify h.title.success 1 w

/-- The method `do` (`do` is a keyword here, hence the name). The result is the
pair `(res, err)`: `.error err` when `err` is not nil, `.ok res` otherwise.
The first step records the arguments of the call in `calls`. -/
def HttpClient.do_ (h : HttpClient) (env : Env) (net : Net) (method url : String)
    (body : Bytes) (headers : Headers) (w : World) : Except Error Response × World :=
  let w := { w with calls := w.calls ++ [⟨method, url, body, headers⟩] }
  match NewRequest env method url body with
  | .error err => (.error err, h.doDeferred net.diff (.error err) w)
  | .ok req =>
    let req := headers.foldl (fun r kv => r.HeaderAdd env kv.1 kv.2) req
    let w := { w with sent := w.sent ++ [req] }
    let out := net.answer
    (out, h.doDeferred net.diff out w)

/-- The method `Request`: the result is the pair `(buf, err)`. -/
def HttpClient.Request (h : HttpClient) (env : Env) (net : Net) (verb url : String)
    (body : Bytes) (headers : Headers) (w : World) : (Bytes × Option Error) × World :=
  match h.do_ env net verb url body headers w with
  | (.error err, w) => (([], some err), w)
  | (.ok res, w) => ((res.Body, res.ReadErr), w)

/-- The method `ignoreRes`: the result is the returned error. -/
def HttpClient.ignoreRes (h : HttpClient) (env : Env) (net : Net) (verb url : String)
    (body : Bytes) (headers : Headers) (w : World) : Option Error × World :=
  match h.do_ env net verb url body headers w with
  | (.error err, w) => (some err, w)
  | (.ok _, w) => (none, w)

/-- The method `Get`. -/
def HttpClient.Get (h : HttpClient) (env : Env) (net : Net) (url : String)
    (headers : Headers) (w : World) : (Bytes × Option Error) × World :=
  h.Request env net "GET" url [] headers w

/-- The loop of `GetRequestHeades` over the keys of the map: both type
assertions `.(string)` must hold for every entry, or the call panics
(`none`). -/
def assertStrings : List (Value × Value) → Option Headers
  | [] => some []
  | (.str k, .str v) :: rest =>
    match assertStrings rest with
    | some m => some ((k, v) :: m)
    | none => none
  | _ :: _ => none

/-- The method `GetRequestHeades`; `none` when it panics. -/
def HttpClient.GetRequestHeades (_h : HttpClient) (data : HeadersValue) : Option Headers :=
  match data with
  | .map entries => assertStrings entries
  | .notMap => some []

/-- The method `GetIgnoreRes`. -/
def HttpClient.GetIgnoreRes (h : HttpClient) (env : Env) (net : Net) (url : String)
    (headers : Headers) (w : World) : Option Error × World :=
  h.ignoreRes env net "GET" url [] headers w

/-- The method `Post`. -/
def HttpClient.Post (h : HttpClient) (env : Env) (net : Net) (url : String) (body : Bytes)
    (headers : Headers) (w : World) : (Bytes × Option Error) × World :=
  h.Request env net "POST" url body headers w

/-- The method `PostIgnoreRes`: it makes a POST request, as its body says (its
comment speaks of a get request). -/
def HttpClient.PostIgnoreRes (h : HttpClient) (env : Env) (net : Net) (url : String)
    (body : Bytes) (headers : Headers) (w : World) : Option Error × World :=
  h.ignoreRes env net "POST" url body headers w

/-- The method `Put`. -/
def HttpClient.Put (h : HttpClient) (env : Env) (net : Net) (url : String) (body : Bytes)
    (headers : Headers) (w : World) : (Bytes × Option Error) × World :=
  h.Request env net "PUT" url body headers w

/-- The method `Patch`. -/
def HttpClient.Patch (h : HttpClient) (env : Env) (net : Net) (url : String) (body : Bytes)
    (headers : Headers) (w : World) : (Bytes × Option Error) × World :=
  h.Request env net "PATCH" url body headers w

/-- The arguments of one call of `do` together with the world's answer. -/
structure Call where
  net : Net
  method : String
  url : String
  body : Bytes
  headers : Headers

/-- A sequence of calls of `do`, one after the other. -/
def HttpClient.doAll (h : HttpClient) (env : Env) : List Call → World → World
  | [], w => w
  | c :: cs, w => h.doAll env cs (h.do_ env c.net c.method c.url c.body c.headers w).2

/-- Modelled from the spec: `executor.Notify` on a counter (package
`server/pkg/executor` is not among the sources); "Counter semantics: notify
adds value to a running total". The total of the counter `title` after the
notifications of `log`. -/
def counterTotal (log : List Notification) (title : String) : Int :=
  ((log.filter (fun n => n.name = title)).map (fun n => n.value)).sum

/-- Modelled from the spec: `executor.Notify` on a histogram (package
`server/pkg/executor` is not among the sources); "Histogram semantics: notify
appends value to a distribution". The samples of the histogram `title` after
the notifications of `log`. -/
def histogramSamples (log : List Notification) (title : String) : List Int :=
  (log.filter (fun n => n.name = title)).map (fun n => n.value)

/-- The four titles of a client are pairwise distinct. -/
def Titles.Distinct (t : Titles) : Prop :=
  t.success ≠ t.fail ∧ t.success ≠ t.otherFail ∧ t.success ≠ t.latency ∧
  t.fail ≠ t.otherFail ∧ t.fail ≠ t.latency ∧ t.otherFail ≠ t.latency

instance (t : Titles) : Decidable t.Distinct := by
  unfold Titles.Distinct; infer_instance

/-! ## The worker pool -/

/-- The variables the worker closures of `Manager` capture: `conf`, `headers`
and `body`. Every worker goroutine refers to these same variables. -/
structure Closure where
  conf : Models.Request
  headers : Headers
  body : Bytes

/-- Whether a worker goroutine is still in its loop or has returned. -/
inductive WorkerStatus where
  | Running
  | Exited
deriving DecidableEq, Repr

/-- A worker goroutine: its status, and the number of calls of the request
executor (`Get` or `Request`, hence of `do`) it has made so far. -/
structure Worker where
  status : WorkerStatus
  issued : Nat
deriving DecidableEq, Repr

/-- Where the goroutine that runs `Manager` stands: blocked in `wg.Wait()`,
past it and about to send on `done`, or returned after the send. -/
inductive ManagerPc where
  | Waiting
  | Sending
  | Returned
deriving DecidableEq, Repr

/-- Where the goroutine that `RunScen` starts stands: in its `select`, past
the case that received from `finished`, or returned through the case
`<-ctx.Done()`. -/
inductive ReceiverPc where
  | Selecting
  | Received
  | SawCancel
deriving DecidableEq, Repr

/-- The state of a run of `Manager`. `wg` is the counter of the wait group,
`j` the loop variable of the spawning goroutine, `spawnerDone` whether that
goroutine has executed its `wg.Done()`, `cancelled` whether `ctx.Done()` is
closed, `done` the values received from the channel `done`, `marshalled` the
arguments of the calls of `json.Marshal`, `panicked` whether `wg.Done()` has
panicked on a negative counter. -/
structure State where
  h : HttpClient
  closure : Closure
  numOfClient : Int
  marshalled : List PostData
  wg : Int
  j : Int
  spawnerDone : Bool
  workers : List Worker
  cancelled : Bool
  manager : ManagerPc
  receiver : ReceiverPc
  done : List (Option Error)
  panicked : Bool
  world : World

/-- The body of the worker's `for` loop, run once: the `select` takes the case
`<-ctx.Done()` when the context is cancelled and the `default` case otherwise. -/
def workerIter (h : HttpClient) (env : Env) (c : Closure) (cancelled : Bool) (net : Net)
    (w : World) : WorkerStatus × World :=
  if cancelled then
    (WorkerStatus.Exited, w)
  else if c.conf.Method = "GET" then
    (WorkerStatus.Running, (h.Get env net c.conf.URL c.headers w).2)
  else
    (WorkerStatus.Running, (h.Request env net c.conf.Method c.conf.URL c.body c.headers w).2)

/-- The method `Manager` up to the point where its goroutines run: the state
in which the spawning goroutine has been started and `Manager` is about to
call `wg.Wait()`. `now` is `time.Now().Unix()`, `cancelled` whether the context
is already cancelled, `receiver` the state of the reader of `done`. The result
is `none` when `GetRequestHeades` or `wg.Add` panics; nothing has been
serialized or spawned then. -/
def HttpClient.Manager (h : HttpClient) (env : Env) (now : Int) (cancelled : Bool)
    (receiver : ReceiverPc) (conf : Models.Request) (w : World) : Option State :=
  match h.GetRequestHeades conf.Headers with
  | none => none
  | some headers =>
    let numOfClient := conf.Clients
    match WaitGroup.Add 0 numOfClient with
    | none => none
    | some wg =>
      let body := (env.Marshal conf.PostData).1
      some
        { h := { h with startTime := now }
          closure := { conf := conf, headers := headers, body := body }
          numOfClient := numOfClient
          marshalled := [conf.PostData]
          wg := wg
          j := 0
          spawnerDone := false
          workers := []
          cancelled := cancelled
          manager := ManagerPc.Waiting
          receiver := receiver
          done := []
          panicked := false
          world := w }

/-- The method `RunScen`: it starts the goroutine that selects on `finished`
and the context, then runs `Manager` with `finished` as `done`. -/
def HttpClient.RunScen (h : HttpClient) (env : Env) (now : Int) (cancelled : Bool)
    (conf : Models.Request) (w : World) : Option State :=
  h.Manager env now cancelled ReceiverPc.Selecting conf w

/-- The atomic steps of the goroutines of a run.
* `spawn`: the spawning goroutine runs its loop body once (`go func() ...` and `j++`).
* `spawnerDone`: the spawning goroutine leaves its loop and calls `wg.Done()`,
  which is `wg.Add(-1)`.
* `worker i net`: worker `i` runs its loop body once, the world answering `net`.
* `cancel`: the context is cancelled.
* `wait`: `wg.Wait()` returns in `Manager`.
* `send`: `done <- nil` is received by the goroutine of `RunScen`, and `Manager` returns.
* `receiverCancel`: the goroutine of `RunScen` takes the case `<-ctx.Done()`. -/
inductive Action where
  | spawn
  | spawnerDone
  | worker (i : Nat) (net : Net)
  | cancel
  | wait
  | send
  | receiverCancel

/-- One step of a run; `none` when the action cannot be taken in the state. -/
def step (env : Env) (a : Action) (s : State) : Option State :=
  if s.panicked then
    none
  else
    match a with
    | .spawn =>
      if !s.spawnerDone ∧ s.j < s.numOfClient then
        some { s with workers := s.workers ++ [⟨WorkerStatus.Running, 0⟩], j := s.j + 1 }
      else
        none
    | .spawnerDone =>
      if !s.spawnerDone ∧ ¬ s.j < s.numOfClient then
        match WaitGroup.Add s.wg (-1) with
        | none =>
          some { s with spawnerDone := true, wg := wrapInt32 (s.wg + -1), panicked := true }
        | some wg => some { s with spawnerDone := true, wg := wg }
      else
        none
    | .worker i net =>
      match s.workers[i]? with
      | none => none
      | some wk =>
        match wk.status with
        | .Exited => none
        | .Running =>
          let r := workerIter s.h env s.closure s.cancelled net s.world
          let wk : Worker :=
            { status := r.1, issued := wk.issued + (r.2.calls.length - s.world.calls.length) }
          some { s with workers := s.workers.set i wk, world := r.2 }
    | .cancel => some { s with cancelled := true }
    | .wait =>
      if s.manager = ManagerPc.Waiting ∧ s.wg = 0 then
        some { s with manager := ManagerPc.Sending }
      else
        none
    | .send =>
      if s.manager = ManagerPc.Sending ∧ s.receiver = ReceiverPc.Selecting then
        some { s with manager := ManagerPc.Returned, receiver := ReceiverPc.Received,
                      done := s.done ++ [none] }
      else
        none
    | .receiverCancel =>
      if s.cancelled ∧ s.receiver = ReceiverPc.Selecting then
        some { s with receiver := ReceiverPc.SawCancel }
      else
        none

/-- A schedule of steps, run from a state; `none` when one of them cannot be
taken. -/
def run (env : Env) : List Action → State → Option State
  | [], s => some s
  | a :: as, s => (step env a s).bind (run env as)

/-- Whether every worker of the state has left its loop. -/
def State.allExited (s : State) : Bool :=
  s.workers.all (fun wk => wk.status = WorkerStatus.Exited)

/-- Whether some worker of the state is still in its loop. -/
def State.someRunning (s : State) : Bool :=
  s.workers.any (fun wk => wk.status = WorkerStatus.Running)

/-- The invariant of the runs of `Manager` started on the client `h` at time
`now` for the configuration `conf`. -/
structure State.Inv (env : Env) (h : HttpClient) (now : Int) (conf : Models.Request)
    (s : State) : Prop where
  counter : 0 ≤ wrapInt32 conf.Clients
  sameConf : s.closure.conf = conf
  sameHeaders : h.GetRequestHeades conf.Headers = some s.closure.headers
  sameBody : s.closure.body = (env.Marshal conf.PostData).1
  client : s.h = { h with startTime := now }
  num : s.numOfClient = conf.Clients
  marshalled : s.marshalled = [conf.PostData]
  jlo : 0 ≤ s.j
  jhi : s.j ≤ conf.Clients ∨ s.j = 0
  workers : (s.workers.length : Int) = s.j
  wg : s.wg = wrapInt32 conf.Clients - (if s.spawnerDone = true then 1 else 0)
  spawned : s.spawnerDone = true → ¬ s.j < conf.Clients
  manager : s.manager ≠ ManagerPc.Waiting → wrapInt32 conf.Clients ≤ 1
  done : ∀ v ∈ s.done, v = none
  notDone : s.manager ≠ ManagerPc.Returned → s.done = []
  panicked : s.panicked = true → wrapInt32 conf.Clients = 0
  panickedDone : s.panicked = true → s.spawnerDone = true

/-- The arguments a worker of a run for `conf` passes to `do`, read off the
branches of the worker loop; `hdrs` is the result of `GetRequestHeades`. -/
def attemptOf (env : Env) (conf : Models.Request) (hdrs : Headers) : DoArgs :=
  if conf.Method = "GET" then
    ⟨"GET", conf.URL, [], hdrs⟩
  else
    ⟨conf.Method, conf.URL, (env.Marshal conf.PostData).1, hdrs⟩

/-- The request `do` hands to the HTTP client for its arguments, when
`http.NewRequest` builds one. -/
def requestOf (env : Env) (a : DoArgs) : HttpReq :=
  ⟨if a.method = "" then "GET" else a.method, a.url, a.body,
    a.headers.map (fun kv => (env.CanonicalMIMEHeaderKey kv.1, kv.2))⟩

/-! ## Sample inputs -/

/-- A sample environment: `http.NewRequest` rejects the URL "::" and builds
every other request; `json.Marshal` rejects `unsupported`, encodes `null` as
the bytes of the word null and a text (one without characters that need
escaping) as its bytes between double quotes; header names are taken to be in
canonical form already. -/
def sampleEnv : Env :=
  { NewRequest := fun _ url => if url = "::" then some "missing protocol scheme" else none
    CanonicalMIMEHeaderKey := fun k => k
    Marshal := fun p =>
      match p with
      | .unsupported => ([], some "json: unsupported type")
      | .null => ([110, 117, 108, 108], none)
      | .text s => (34 :: s.toList.map Char.toNat ++ [34], none) }

/-- The client `Initializer` returns for the run "run" when registration
succeeds. -/
def sampleClient : HttpClient := (Initializer (fun _ _ => none) "run").1

/-- A sample configuration whose `Headers` holds no map. -/
def sampleConf (method url : String) (clients : Int) (p : PostData) : Models.Request :=
  { URL := url, Method := method, Clients := clients, Headers := .notMap, PostData := p }

/-- A sample answer of the world: 1500 nanoseconds elapsed, status 200, an
empty body. -/
def sampleNet : Net := ⟨1500, .ok ⟨200, [], none⟩⟩

/-! ## Lemmas on the notification log -/

theorem counterTotal_append (l l' : List Notification) (t : String) :
    counterTotal (l ++ l') t = counterTotal l t + counterTotal l' t := by
  simp [counterTotal, List.filter_append, List.map_append, List.sum_append]

theorem histogramSamples_append (l l' : List Notification) (t : String) :
    histogramSamples (l ++ l') t = histogramSamples l t ++ histogramSamples l' t := by
  simp [histogramSamples, List.filter_append, List.map_append]

/-- The title of the outcome counter `do` notifies, read off its result. -/
theorem do_notified (h : HttpClient) (env : Env) (net : Net) (method url : String)
    (body : Bytes) (headers : Headers) (w : World) :
    ∃ t, (t = h.title.success ∨ t = h.title.fail ∨ t = h.title.otherFail) ∧
      (h.do_ env net method url body headers w).2.notified =
        w.notified ++ [⟨h.title.latency, Microseconds net.diff⟩, ⟨t, 1⟩] := by
  unfold HttpClient.do_ HttpClient.doDeferred Notify NewRequest
  cases hreq : env.NewRequest method url with
  | some err => exact ⟨_, Or.inr (Or.inr rfl), by simp⟩
  | none =>
    cases hans : net.answer with
    | error e => exact ⟨_, Or.inr (Or.inr rfl), by simp⟩
    | ok res =>
      by_cases hs : res.StatusCode ≥ 300 ∨ res.StatusCode < 200
      · exact ⟨_, Or.inr (Or.inl rfl), by simp [hs]⟩
      · exact ⟨_, Or.inl rfl, by simp [hs]⟩

theorem request_world (h : HttpClient) (env : Env) (net : Net) (verb url : String)
    (body : Bytes) (headers : Headers) (w : World) :
    (h.Request env net verb url body headers w).2 =
      (h.do_ env net verb url body headers w).2 := by
  unfold HttpClient.Request
  split <;> simp_all

theorem ignoreRes_world (h : HttpClient) (env : Env) (net : Net) (verb url : String)
    (body : Bytes) (headers : Headers) (w : World) :
    (h.ignoreRes env net verb url body headers w).2 =
      (h.do_ env net verb url body headers w).2 := by
  unfold HttpClient.ignoreRes
  split <;> simp_all

theorem do_calls (h : HttpClient) (env : Env) (net : Net) (method url : String)
    (body : Bytes) (headers : Headers) (w : World) :
    (h.do_ env net method url body headers w).2.calls =
      w.calls ++ [⟨method, url, body, headers⟩] := by
  unfold HttpClient.do_ HttpClient.doDeferred Notify NewRequest
  cases hreq : env.NewRequest method url with
  | some err => simp
  | none =>
    cases hans : net.answer with
    | error e => simp
    | ok res => by_cases hs : res.StatusCode ≥ 300 ∨ res.StatusCode < 200 <;> simp [hs]

theorem counterTotal_pair (a b : Notification) (t : String) :
    counterTotal [a, b] t =
      (if a.name = t then a.value else 0) + (if b.name = t then b.value else 0) := by
  by_cases ha : a.name = t <;> by_cases hb : b.name = t <;>
    simp [counterTotal, List.filter, ha, hb]

theorem histogramSamples_pair (a b : Notification) (t : String) :
    histogramSamples [a, b] t =
      (if a.name = t then [a.value] else []) ++ (if b.name = t then [b.value] else []) := by
  by_cases ha : a.name = t <;> by_cases hb : b.name = t <;>
    simp [histogramSamples, List.filter, ha, hb]

/-- The three outcome counters together grow by one in every call of `do`. -/
theorem do_counters_step (h : HttpClient) (env : Env) (hd : h.title.Distinct) (c : Call)
    (w : World) :
    let w' := (h.do_ env c.net c.method c.url c.body c.headers w).2
    (counterTotal w'.notified h.title.success - counterTotal w.notified h.title.success,
      counterTotal w'.notified h.title.fail - counterTotal w.notified h.title.fail,
      counterTotal w'.notified h.title.otherFail - counterTotal w.notified h.title.otherFail)
      ∈ [((1 : Int), (0 : Int), (0 : Int)), (0, 1, 0), (0, 0, 1)] := by
  obtain ⟨h1, h2, h3, h4, h5, h6⟩ := hd
  obtain ⟨t, ht, hn⟩ := do_notified h env c.net c.method c.url c.body c.headers w
  simp only [hn, counterTotal_append, counterTotal_pair]
  rcases ht with rfl | rfl | rfl <;>
    simp [h1, h2, h3, h4, h5, h6, Ne.symm h1, Ne.symm h2, Ne.symm h3, Ne.symm h4, Ne.symm h5,
      Ne.symm h6]

/-! ## The request executor: outcome counters and latency samples -/

/-- C1: every call of `do` notifies the latency histogram and then exactly one
outcome counter with +1, chosen as follows. The call ends with an error exactly
when `http.NewRequest` fails or the round trip fails, and then the counter is
`otherFail` (there is no response whose status code could be read); otherwise
the counter is `success` when the status code `s` satisfies `200 ≤ s < 300`
and `fail` when it does not. In particular 199 and 300 notify `fail`, 200 and
299 notify `success`. -/
theorem do_notifies_outcome_counter (h : HttpClient) (env : Env) (net : Net)
    (method url : String) (body : Bytes) (headers : Headers) (w : World) (d : Int)
    (buf : Bytes) (re : Option Error) :
    let r := h.do_ env net method url body headers w
    let built : Env := { env with NewRequest := fun _ _ => none }
    let at_ := fun (s : Int) =>
      (h.do_ built ⟨d, .ok ⟨s, buf, re⟩⟩ method url body headers w).2.notified
    (r.1 = match env.NewRequest method url with
           | some err => .error err
           | none => net.answer) ∧
    r.2.notified = w.notified ++
      [⟨h.title.latency, Microseconds net.diff⟩,
       ⟨(match r.1 with
         | .error _ => h.title.otherFail
         | .ok res =>
           if 200 ≤ res.StatusCode ∧ res.StatusCode < 300 then h.title.success
           else h.title.fail), 1⟩] ∧
    at_ 199 = w.notified ++ [⟨h.title.latency, Microseconds d⟩, ⟨h.title.fail, 1⟩] ∧
    at_ 200 = w.notified ++ [⟨h.title.latency, Microseconds d⟩, ⟨h.title.success, 1⟩] ∧
    at_ 299 = w.notified ++ [⟨h.title.latency, Microseconds d⟩, ⟨h.title.success, 1⟩] ∧
    at_ 300 = w.notified ++ [⟨h.title.latency, Microseconds d⟩, ⟨h.title.fail, 1⟩] := by
  refine ⟨?_, ?_, ?_, ?_, ?_, ?_⟩
  · unfold HttpClient.do_ NewRequest
    cases env.NewRequest method url <;> rfl
  · unfold HttpClient.do_ HttpClient.doDeferred Notify NewRequest
    cases hreq : env.NewRequest method url with
    | some err => simp
    | none =>
      cases hans : net.answer with
      | error e => simp
      | ok res =>
        by_cases hs : res.StatusCode ≥ 300 ∨ res.StatusCode < 200
        · have hn : ¬ (200 ≤ res.StatusCode ∧ res.StatusCode < 300) := by omega
          simp [hs, hn]
        · have hn : 200 ≤ res.StatusCode ∧ res.StatusCode < 300 := by omega
          simp [hs, hn]
  all_goals simp [HttpClient.do_, HttpClient.doDeferred, Notify, NewRequest]

/-- C2: starting from counters at zero, after any finite sequence of calls of
`do` the totals of `success`, `fail` and `otherFail` add up to the number of
calls; and each single call adds 1 to exactly one of the three counters and 0
to the other two. -/
theorem counters_sum_eq_attempts (h : HttpClient) (env : Env) (hd : h.title.Distinct)
    (calls : List Call) :
    (let log := (h.doAll env calls World.empty).notified
     counterTotal log h.title.success + counterTotal log h.title.fail +
       counterTotal log h.title.otherFail = calls.length) ∧
    ∀ (c : Call) (w : World),
      let w' := (h.do_ env c.net c.method c.url c.body c.headers w).2
      (counterTotal w'.notified h.title.success - counterTotal w.notified h.title.success,
        counterTotal w'.notified h.title.fail - counterTotal w.notified h.title.fail,
        counterTotal w'.notified h.title.otherFail - counterTotal w.notified h.title.otherFail)
        ∈ [((1 : Int), (0 : Int), (0 : Int)), (0, 1, 0), (0, 0, 1)] := by
  refine ⟨?_, fun c w => do_counters_step h env hd c w⟩
  have key : ∀ (cs : List Call) (w : World),
      counterTotal (h.doAll env cs w).notified h.title.success +
        counterTotal (h.doAll env cs w).notified h.title.fail +
        counterTotal (h.doAll env cs w).notified h.title.otherFail =
      counterTotal w.notified h.title.success + counterTotal w.notified h.title.fail +
        counterTotal w.notified h.title.otherFail + cs.length := by
    intro cs
    induction cs with
    | nil => intro w; simp [HttpClient.doAll]
    | cons c cs ih =>
      intro w
      have hstep := do_counters_step h env hd c w
      simp only [HttpClient.doAll, ih, List.length_cons]
      simp only [List.mem_cons, Prod.mk.injEq, List.mem_singleton, List.not_mem_nil,
        or_false] at hstep
      push_cast
      omega
  have h0 := key calls World.empty
  simpa [World.empty, counterTotal] using h0

/-- The client of `Initializer` has pairwise distinct titles, so the sum of its
three outcome counters after three calls of `do` (one transport error, one
response with status 200 and one with status 500) is 3. -/
theorem counters_sum_eq_attempts_witness :
    (Initializer (fun _ _ => none) "run").1.title.Distinct ∧
    (let h := (Initializer (fun _ _ => none) "run").1
     let env : Env := ⟨fun _ _ => none, fun _ => ([], none), fun k => k⟩
     let calls : List Call :=
       [⟨⟨1500, .error "refused"⟩, "GET", "http://test/ok", [], []⟩,
        ⟨⟨2500, .ok ⟨200, [], none⟩⟩, "GET", "http://test/ok", [], []⟩,
        ⟨⟨3500, .ok ⟨500, [], none⟩⟩, "GET", "http://test/ok", [], []⟩]
     let log := (h.doAll env calls World.empty).notified
     counterTotal log h.title.success + counterTotal log h.title.fail +
       counterTotal log h.title.otherFail = calls.length) :=
  ⟨by decide,
   (counters_sum_eq_attempts (Initializer (fun _ _ => none) "run").1
     ⟨fun _ _ => none, fun _ => ([], none), fun k => k⟩ (by decide) _).1⟩

/-- The latency histogram gets one sample in every call of `do`. -/
theorem do_latency_step (h : HttpClient) (env : Env)
    (hl : h.title.success ≠ h.title.latency ∧ h.title.fail ≠ h.title.latency ∧
      h.title.otherFail ≠ h.title.latency)
    (net : Net) (method url : String) (body : Bytes) (headers : Headers) (w : World) :
    histogramSamples (h.do_ env net method url body headers w).2.notified h.title.latency =
      histogramSamples w.notified h.title.latency ++ [Microseconds net.diff] := by
  obtain ⟨h1, h2, h3⟩ := hl
  obtain ⟨t, ht, hn⟩ := do_notified h env net method url body headers w
  simp only [hn, histogramSamples_append, histogramSamples_pair]
  rcases ht with rfl | rfl | rfl <;> simp [h1, h2, h3]

/-- C3: whichever way a call of `do` ends (request construction fails, the
round trip fails, or a response with any status code arrives), the `latency`
histogram gets exactly one new sample, the elapsed microseconds; so after any
sequence of calls the number of latency samples is the number of calls, and a
call of `Request` or of `ignoreRes` adds exactly one sample as well. -/
theorem latency_one_sample_per_attempt (h : HttpClient) (env : Env)
    (hl : h.title.success ≠ h.title.latency ∧ h.title.fail ≠ h.title.latency ∧
      h.title.otherFail ≠ h.title.latency) :
    (∀ (net : Net) (method url : String) (body : Bytes) (headers : Headers) (w : World),
      histogramSamples (h.do_ env net method url body headers w).2.notified h.title.latency =
        histogramSamples w.notified h.title.latency ++ [Microseconds net.diff]) ∧
    (∀ calls : List Call,
      (histogramSamples (h.doAll env calls World.empty).notified h.title.latency).length =
        calls.length) ∧
    (∀ (net : Net) (verb url : String) (body : Bytes) (headers : Headers) (w : World),
      histogramSamples (h.Request env net verb url body headers w).2.notified h.title.latency =
        histogramSamples w.notified h.title.latency ++ [Microseconds net.diff]) ∧
    (∀ (net : Net) (verb url : String) (body : Bytes) (headers : Headers) (w : World),
      histogramSamples (h.ignoreRes env net verb url body headers w).2.notified
          h.title.latency =
        histogramSamples w.notified h.title.latency ++ [Microseconds net.diff]) := by
  refine ⟨fun net m u b hd w => do_latency_step h env hl net m u b hd w, ?_, ?_, ?_⟩
  · have key : ∀ (cs : List Call) (w : World),
        (histogramSamples (h.doAll env cs w).notified h.title.latency).length =
          (histogramSamples w.notified h.title.latency).length + cs.length := by
      intro cs
      induction cs with
      | nil => intro w; simp [HttpClient.doAll]
      | cons c cs ih =>
        intro w
        simp only [HttpClient.doAll, ih, List.length_cons,
          do_latency_step h env hl c.net c.method c.url c.body c.headers w, List.length_append,
          List.length_singleton, List.length_nil]
        omega
    intro calls
    simpa [World.empty, histogramSamples] using key calls World.empty
  · intro net verb url body headers w
    rw [request_world]
    exact do_latency_step h env hl net verb url body headers w
  · intro net verb url body headers w
    rw [ignoreRes_world]
    exact do_latency_step h env hl net verb url body headers w

/-- For the client of `Initializer`, a call of `do` whose request cannot be
built (the early return) still leaves exactly one latency sample: 1500
nanoseconds elapsed give the sample 1. -/
theorem latency_one_sample_per_attempt_witness :
    (let h := (Initializer (fun _ _ => none) "run").1
     (h.title.success ≠ h.title.latency ∧ h.title.fail ≠ h.title.latency ∧
       h.title.otherFail ≠ h.title.latency) ∧
     histogramSamples
        (h.do_ ⟨fun _ _ => some "bad url", fun _ => ([], none), fun k => k⟩
          ⟨1500, .error "unused"⟩
          "GET" "::" [] [] World.empty).2.notified h.title.latency = [1]) :=
  ⟨by decide,
   (latency_one_sample_per_attempt (Initializer (fun _ _ => none) "run").1
     ⟨fun _ _ => some "bad url", fun _ => ([], none), fun k => k⟩ (by decide)).1
     ⟨1500, .error "unused"⟩ "GET" "::" [] [] World.empty⟩

/-! ## Metric registration -/

/-- C10: for every run identifier `reqId`, `Initializer` calls `executor.Setup`
with exactly one group, named `"HTTP (" ++ reqId ++ ")"`, holding two graphs in
this order: "HTTP Response" (unit "N") with the three Counter metrics
`.http_ok`, `.http_fail`, `.http_other_fail` in that order, and "Latency"
(unit "Microsecond") with the one Histogram metric `.latency`. The four titles
are pairwise distinct and are the `success`, `fail`, `otherFail` and `latency`
titles of the returned client. -/
theorem initializer_registers_groups (Setup : List Group → String → Option Error)
    (reqId : String) :
    let groups : List Group :=
      [⟨"HTTP (" ++ reqId ++ ")",
        [⟨"HTTP Response", "N",
          [⟨".http_ok", MetricType.Counter⟩, ⟨".http_fail", MetricType.Counter⟩,
           ⟨".http_other_fail", MetricType.Counter⟩]⟩,
         ⟨"Latency", "Microsecond", [⟨".latency", MetricType.Histogram⟩]⟩]⟩]
    initGroups (Initializer Setup reqId).1.title reqId = groups ∧
    (Initializer Setup reqId).2 = Setup groups reqId ∧
    (Initializer Setup reqId).1.title.success = ".http_ok" ∧
    (Initializer Setup reqId).1.title.fail = ".http_fail" ∧
    (Initializer Setup reqId).1.title.otherFail = ".http_other_fail" ∧
    (Initializer Setup reqId).1.title.latency = ".latency" ∧
    [".http_ok", ".http_fail", ".http_other_fail", ".latency"].Nodup := by
  have ht : (Initializer Setup reqId).1.title = initTitles := by
    simp only [Initializer]
    split <;> rfl
  have hs : (Initializer Setup reqId).2 = Setup (initGroups initTitles reqId) reqId := by
    simp only [Initializer]
    split <;> simp_all
  refine ⟨?_, ?_, ?_, ?_, ?_, ?_, by decide⟩
  · rw [ht]; rfl
  · rw [hs]; rfl
  all_goals rw [ht]; rfl

/-! ## The wait group and the start of `Manager` -/

theorem wrapInt32_range (x : Int) :
    -2147483648 ≤ wrapInt32 x ∧ wrapInt32 x < 2147483648 := by
  unfold wrapInt32
  omega

theorem wrapInt32_id (x : Int) (h1 : -2147483648 ≤ x) (h2 : x < 2147483648) :
    wrapInt32 x = x := by
  unfold wrapInt32
  omega

/-- The call `wg.Done()` on a counter `c` that `wg.Add` has left: it panics on
0 and leaves `c - 1` otherwise. -/
theorem waitGroup_done (c : Int) (h1 : 0 ≤ c) (h2 : c < 2147483648) :
    wrapInt32 (c + -1) = c - 1 ∧
    WaitGroup.Add c (-1) = if c = 0 then none else some (c - 1) := by
  have hw : wrapInt32 (c + -1) = c - 1 := by
    unfold wrapInt32
    omega
  refine ⟨hw, ?_⟩
  unfold WaitGroup.Add
  simp only [hw]
  by_cases h0 : c = 0
  · simp [h0]
  · have : ¬ c - 1 < 0 := by omega
    simp [h0, this]

/-- The state in which `Manager` starts its goroutines: it exists exactly when
neither `GetRequestHeades` nor `wg.Add` panics. -/
theorem manager_start (h : HttpClient) (env : Env) (now : Int) (cancelled : Bool)
    (receiver : ReceiverPc) (conf : Models.Request) (w : World) :
    (∀ hdrs, h.GetRequestHeades conf.Headers = some hdrs → 0 ≤ wrapInt32 conf.Clients →
      ∃ s0, h.Manager env now cancelled receiver conf w = some s0) ∧
    ∀ s0, h.Manager env now cancelled receiver conf w = some s0 →
      s0.workers = [] ∧ s0.j = 0 ∧ s0.spawnerDone = false ∧ s0.panicked = false ∧
      s0.numOfClient = conf.Clients ∧ s0.world = w ∧ s0.done = [] ∧
      s0.manager = ManagerPc.Waiting ∧ s0.wg = wrapInt32 conf.Clients ∧
      0 ≤ wrapInt32 conf.Clients ∧
      h.GetRequestHeades conf.Headers = some s0.closure.headers ∧
      s0.closure.conf = conf ∧ s0.closure.body = (env.Marshal conf.PostData).1 ∧
      s0.marshalled = [conf.PostData] ∧ s0.h = { h with startTime := now } := by
  refine ⟨fun hdrs hh hc => ?_, fun s0 hs0 => ?_⟩
  · have hnn : ¬ wrapInt32 conf.Clients < 0 := by omega
    simp [HttpClient.Manager, hh, WaitGroup.Add, hnn]
  · unfold HttpClient.Manager at hs0
    cases hh : h.GetRequestHeades conf.Headers with
    | none => simp [hh] at hs0
    | some hdrs =>
      by_cases hneg : wrapInt32 conf.Clients < 0
      · simp [hh, WaitGroup.Add, hneg] at hs0
      · simp only [hh, WaitGroup.Add, zero_add, hneg, if_false, Option.some.injEq] at hs0
        subst hs0
        exact ⟨rfl, rfl, rfl, rfl, rfl, rfl, rfl, rfl, rfl, by omega, rfl, rfl, rfl, rfl, rfl⟩

/-! ## The worker pool: invariant of the runs -/

theorem manager_inv (h : HttpClient) (env : Env) (now : Int) (cancelled : Bool)
    (receiver : ReceiverPc) (conf : Models.Request) (w : World) (s0 : State)
    (hs0 : h.Manager env now cancelled receiver conf w = some s0) :
    s0.Inv env h now conf := by
  obtain ⟨hw, hj, hsp, hp, hnum, _, hd, hm, hwg, hc, hh, hcf, hb, hmar, hcl⟩ :=
    (manager_start h env now cancelled receiver conf w).2 s0 hs0
  exact
    { counter := hc, sameConf := hcf, sameHeaders := hh, sameBody := hb, client := hcl
      num := hnum, marshalled := hmar
      jlo := by rw [hj], jhi := Or.inr hj
      workers := by rw [hw, hj]; rfl
      wg := by rw [hwg, hsp]; simp
      spawned := by rw [hsp]; intro hf; exact absurd hf (by decide)
      manager := fun hne => absurd hm hne
      done := by rw [hd]; intro v hv; exact absurd hv (List.not_mem_nil v)
      notDone := fun _ => hd
      panicked := by rw [hp]; intro hf; exact absurd hf (by decide)
      panickedDone := by rw [hp]; intro hf; exact absurd hf (by decide) }

theorem step_inv (h : HttpClient) (env : Env) (now : Int) (conf : Models.Request)
    (a : Action) (s s' : State) (hi : s.Inv env h now conf)
    (hstep : step env a s = some s') : s'.Inv env h now conf := by
  obtain ⟨h0, h1, h2, h2b, h3, h4, h5, h6, h7, h8, h9, h10, h11, h12, h13, _, _⟩ := hi
  unfold step at hstep
  split at hstep
  · simp at hstep
  · rename_i hp
    have h14 : s.panicked = true → wrapInt32 conf.Clients = 0 := fun ht => absurd ht hp
    have h15 : s.panicked = true → s.spawnerDone = true := fun ht => absurd ht hp
    cases a with
    | spawn =>
      simp only at hstep
      split at hstep
      · rename_i hc
        injection hstep with hstep
        subst hstep
        simp only [Bool.not_eq_true', h4] at hc
        obtain ⟨hc1, hc2⟩ := hc
        refine
          { counter := h0, sameConf := h1, sameHeaders := h2, sameBody := h2b, client := h3
            num := h4, marshalled := h5
            jlo := ?_, jhi := ?_, workers := ?_, wg := h9, spawned := ?_, manager := h11
            done := h12, notDone := h13, panicked := h14, panickedDone := h15 }
        · show 0 ≤ s.j + 1
          omega
        · show s.j + 1 ≤ conf.Clients ∨ s.j + 1 = 0
          left
          omega
        · show ((s.workers ++ [(⟨WorkerStatus.Running, 0⟩ : Worker)]).length : Int) = s.j + 1
          rw [List.length_append, List.length_singleton]
          push_cast
          omega
        · intro hsp
          change s.spawnerDone = true at hsp
          rw [hc1] at hsp
          exact absurd hsp (by decide)
      · simp at hstep
    | spawnerDone =>
      simp only at hstep
      split at hstep
      · rename_i hc
        simp only [Bool.not_eq_true', h4] at hc
        obtain ⟨hc1, hc2⟩ := hc
        have hwg0 : s.wg = wrapInt32 conf.Clients := by rw [h9, hc1]; simp
        have hr := wrapInt32_range conf.Clients
        obtain ⟨hw, hadd⟩ := waitGroup_done s.wg (by omega) (by omega)
        have hwg : wrapInt32 (s.wg + -1) =
            wrapInt32 conf.Clients - (if true = true then 1 else 0) := by
          rw [hw, hwg0]; simp
        by_cases hz : s.wg = 0
        · rw [hadd, if_pos hz] at hstep
          injection hstep with hstep
          subst hstep
          exact
            { counter := h0, sameConf := h1, sameHeaders := h2, sameBody := h2b, client := h3
              num := h4, marshalled := h5
              jlo := h6, jhi := h7, workers := h8, wg := hwg, spawned := fun _ => hc2
              manager := h11, done := h12, notDone := h13
              panicked := fun _ => by rw [← hwg0]; exact hz
              panickedDone := fun _ => rfl }
        · rw [hadd, if_neg hz] at hstep
          injection hstep with hstep
          subst hstep
          exact
            { counter := h0, sameConf := h1, sameHeaders := h2, sameBody := h2b, client := h3
              num := h4, marshalled := h5
              jlo := h6, jhi := h7, workers := h8, wg := by rw [← hw]; exact hwg
              spawned := fun _ => hc2
              manager := h11, done := h12, notDone := h13, panicked := h14
              panickedDone := fun _ => rfl }
      · simp at hstep
    | worker i net =>
      simp only at hstep
      split at hstep
      · simp at hstep
      · split at hstep
        · simp at hstep
        · injection hstep with hstep
          subst hstep
          refine
            { counter := h0, sameConf := h1, sameHeaders := h2, sameBody := h2b, client := h3
              num := h4, marshalled := h5
              jlo := h6, jhi := h7, workers := ?_, wg := h9, spawned := h10, manager := h11
              done := h12, notDone := h13, panicked := h14, panickedDone := h15 }
          show ((s.workers.set i _).length : Int) = s.j
          rw [List.length_set]
          exact h8
    | cancel =>
      simp only at hstep
      injection hstep with hstep
      subst hstep
      exact
        { counter := h0, sameConf := h1, sameHeaders := h2, sameBody := h2b, client := h3
          num := h4, marshalled := h5
          jlo := h6, jhi := h7, workers := h8, wg := h9, spawned := h10, manager := h11
          done := h12, notDone := h13, panicked := h14, panickedDone := h15 }
    | wait =>
      simp only at hstep
      split at hstep
      · rename_i hc
        obtain ⟨hc1, hc2⟩ := hc
        injection hstep with hstep
        subst hstep
        have hle : wrapInt32 conf.Clients ≤ 1 := by
          rw [hc2] at h9
          split at h9 <;> omega
        have hdone : s.done = [] := h13 (by rw [hc1]; decide)
        exact
          { counter := h0, sameConf := h1, sameHeaders := h2, sameBody := h2b, client := h3
            num := h4, marshalled := h5
            jlo := h6, jhi := h7, workers := h8, wg := h9, spawned := h10
            manager := fun _ => hle, done := h12, notDone := fun _ => hdone
            panicked := h14, panickedDone := h15 }
      · simp at hstep
    | send =>
      simp only at hstep
      split at hstep
      · rename_i hc
        obtain ⟨hc1, hc2⟩ := hc
        injection hstep with hstep
        subst hstep
        have hle : wrapInt32 conf.Clients ≤ 1 := h11 (by rw [hc1]; decide)
        refine
          { counter := h0, sameConf := h1, sameHeaders := h2, sameBody := h2b, client := h3
            num := h4, marshalled := h5
            jlo := h6, jhi := h7, workers := h8, wg := h9, spawned := h10
            manager := fun _ => hle, done := ?_, notDone := ?_, panicked := h14
            panickedDone := h15 }
        · intro v hv
          change v ∈ s.done ++ [none] at hv
          rw [List.mem_append, List.mem_singleton] at hv
          rcases hv with hv | hv
          · exact h12 v hv
          · exact hv
        · intro hne
          exact absurd rfl hne
      · simp at hstep
    | receiverCancel =>
      simp only at hstep
      split at hstep
      · injection hstep with hstep
        subst hstep
        exact
          { counter := h0, sameConf := h1, sameHeaders := h2, sameBody := h2b, client := h3
            num := h4, marshalled := h5
            jlo := h6, jhi := h7, workers := h8, wg := h9, spawned := h10, manager := h11
            done := h12, notDone := h13, panicked := h14, panickedDone := h15 }
      · simp at hstep

theorem run_inv (h : HttpClient) (env : Env) (now : Int) (conf : Models.Request)
    (acts : List Action) : ∀ (s s' : State), s.Inv env h now conf →
    run env acts s = some s' → s'.Inv env h now conf := by
  induction acts with
  | nil =>
    intro s s' hi hrun
    simp only [run, Option.some.injEq] at hrun
    subst hrun
    exact hi
  | cons a as ih =>
    intro s s' hi hrun
    simp only [run] at hrun
    cases hst : step env a s with
    | none => simp [hst] at hrun
    | some s1 =>
      rw [hst] at hrun
      exact ih s1 s' (step_inv h env now conf a s s1 hi hst) hrun

theorem run_append (env : Env) (as bs : List Action) (s : State) :
    run env (as ++ bs) s = (run env as s).bind (run env bs) := by
  induction as generalizing s with
  | nil => simp [run]
  | cons a as ih =>
    simp only [List.cons_append, run]
    cases step env a s with
    | none => simp
    | some s1 => simp [ih]

/-! ## The worker loop -/

theorem foldl_headerAdd (env : Env) (hdrs : Headers) : ∀ req : HttpReq,
    hdrs.foldl (fun r kv => r.HeaderAdd env kv.1 kv.2) req =
      { req with
        headers := req.headers ++ hdrs.map (fun kv => (env.CanonicalMIMEHeaderKey kv.1, kv.2)) } := by
  induction hdrs with
  | nil => intro req; simp
  | cons kv rest ih =>
    intro req
    rw [List.foldl_cons, ih]
    simp [HttpReq.HeaderAdd]

theorem do_sent (h : HttpClient) (env : Env) (net : Net) (method url : String)
    (body : Bytes) (headers : Headers) (w : World) :
    (h.do_ env net method url body headers w).2.sent =
      w.sent ++ (match env.NewRequest method url with
                 | none => [requestOf env ⟨method, url, body, headers⟩]
                 | some _ => []) := by
  unfold HttpClient.do_ HttpClient.doDeferred Notify NewRequest
  cases hreq : env.NewRequest method url with
  | some err => simp
  | none =>
    cases hans : net.answer with
    | error e => simp [foldl_headerAdd, requestOf]
    | ok res =>
      by_cases hs : res.StatusCode ≥ 300 ∨ res.StatusCode < 200 <;>
        simp [hs, foldl_headerAdd, requestOf]

/-- A call of `do` whose request cannot be built notifies `latency` and
`otherFail` and sends nothing. -/
theorem do_unbuilt (h : HttpClient) (env : Env) (net : Net) (method url : String)
    (body : Bytes) (headers : Headers) (w : World) (err : Error)
    (hreq : env.NewRequest method url = some err) :
    (h.do_ env net method url body headers w).2 =
      { notified := w.notified ++
          [⟨h.title.latency, Microseconds net.diff⟩, ⟨h.title.otherFail, 1⟩]
        sent := w.sent
        calls := w.calls ++ [⟨method, url, body, headers⟩] } := by
  simp [HttpClient.do_, HttpClient.doDeferred, Notify, NewRequest, hreq]

theorem workerIter_cancelled (h : HttpClient) (env : Env) (c : Closure) (net : Net)
    (w : World) : workerIter h env c true net w = (WorkerStatus.Exited, w) := by
  simp [workerIter]

/-- An iteration that starts with the context not cancelled is one call of
`do`, with the arguments the method selects. -/
theorem workerIter_live (h : HttpClient) (env : Env) (c : Closure) (net : Net)
    (w : World) :
    workerIter h env c false net w =
      (WorkerStatus.Running,
        (h.do_ env net (if c.conf.Method = "GET" then "GET" else c.conf.Method) c.conf.URL
          (if c.conf.Method = "GET" then [] else c.body) c.headers w).2) := by
  by_cases hm : c.conf.Method = "GET"
  · simp [workerIter, hm, HttpClient.Get, request_world]
  · simp [workerIter, hm, request_world]

/-- What a step of worker `i` does: it is possible exactly for a worker still
in its loop, and it runs `workerIter` once on the shared closure. -/
theorem step_worker (env : Env) (s s' : State) (i : Nat) (net : Net)
    (hstep : step env (.worker i net) s = some s') :
    ∃ wk, s.workers[i]? = some wk ∧ wk.status = WorkerStatus.Running ∧
      s.panicked = false ∧
      s' = { s with
        workers := s.workers.set i
          ⟨(workerIter s.h env s.closure s.cancelled net s.world).1,
            wk.issued + ((workerIter s.h env s.closure s.cancelled net s.world).2.calls.length
              - s.world.calls.length)⟩
        world := (workerIter s.h env s.closure s.cancelled net s.world).2 } := by
  unfold step at hstep
  split at hstep
  · simp at hstep
  · rename_i hp
    simp only at hstep
    split at hstep
    · simp at hstep
    · rename_i wk hwk
      split at hstep
      · simp at hstep
      · rename_i hrun
        injection hstep with hstep
        exact ⟨wk, hwk, hrun, by simpa using hp, hstep.symm⟩

theorem step_worker_enabled (env : Env) (s : State) (i : Nat) (net : Net) (wk : Worker)
    (hp : s.panicked = false) (hwk : s.workers[i]? = some wk)
    (hrun : wk.status = WorkerStatus.Running) :
    ∃ s', step env (.worker i net) s = some s' := by
  unfold step
  simp [hp, hwk, hrun]

theorem step_worker_exited (env : Env) (s : State) (i : Nat) (net : Net) (k : Nat)
    (hwk : s.workers[i]? = some ⟨WorkerStatus.Exited, k⟩) :
    step env (.worker i net) s = none := by
  unfold step
  split
  · rfl
  · simp [hwk]

/-- A worker that has left its loop stays as it is under every step. -/
theorem step_exited_stays (env : Env) (a : Action) (s s' : State) (i k : Nat)
    (hwk : s.workers[i]? = some ⟨WorkerStatus.Exited, k⟩)
    (hstep : step env a s = some s') :
    s'.workers[i]? = some ⟨WorkerStatus.Exited, k⟩ := by
  have hlt : i < s.workers.length := by
    rcases List.getElem?_eq_some.mp hwk with ⟨hlt, _⟩
    exact hlt
  cases a with
  | worker j net =>
    obtain ⟨wk, hj, hrun, _, hs'⟩ := step_worker env s s' j net hstep
    subst hs'
    by_cases hij : j = i
    · subst hij
      rw [hwk] at hj
      injection hj with hj
      subst hj
      exact WorkerStatus.noConfusion hrun
    · show (s.workers.set j _)[i]? = _
      rw [List.getElem?_set_ne hij]
      exact hwk
  | spawn =>
    unfold step at hstep
    split at hstep
    · simp at hstep
    · simp only at hstep
      split at hstep
      · injection hstep with hstep
        subst hstep
        show (s.workers ++ _)[i]? = _
        rw [List.getElem?_append_left hlt]
        exact hwk
      · simp at hstep
  | spawnerDone =>
    unfold step at hstep
    split at hstep
    · simp at hstep
    · simp only at hstep
      split at hstep
      · split at hstep <;>
        · injection hstep with hstep
          subst hstep
          exact hwk
      · simp at hstep
  | cancel =>
    unfold step at hstep
    split at hstep
    · simp at hstep
    · injection hstep with hstep
      subst hstep
      exact hwk
  | wait =>
    unfold step at hstep
    split at hstep
    · simp at hstep
    · simp only at hstep
      split at hstep
      · injection hstep with hstep
        subst hstep
        exact hwk
      · simp at hstep
  | send =>
    unfold step at hstep
    split at hstep
    · simp at hstep
    · simp only at hstep
      split at hstep
      · injection hstep with hstep
        subst hstep
        exact hwk
      · simp at hstep
  | receiverCancel =>
    unfold step at hstep
    split at hstep
    · simp at hstep
    · simp only at hstep
      split at hstep
      · injection hstep with hstep
        subst hstep
        exact hwk
      · simp at hstep

theorem run_exited_stays (env : Env) (acts : List Action) : ∀ (s s' : State) (i k : Nat),
    s.workers[i]? = some ⟨WorkerStatus.Exited, k⟩ → run env acts s = some s' →
    s'.workers[i]? = some ⟨WorkerStatus.Exited, k⟩ := by
  induction acts with
  | nil =>
    intro s s' i k hwk hrun
    simp only [run, Option.some.injEq] at hrun
    subst hrun
    exact hwk
  | cons a as ih =>
    intro s s' i k hwk hrun
    simp only [run] at hrun
    cases hst : step env a s with
    | none => simp [hst] at hrun
    | some s1 =>
      rw [hst] at hrun
      exact ih s1 s' i k (step_exited_stays env a s s1 i k hwk hst) hrun

/-- The effect on the world of a step of a worker in a run for `conf`. -/
theorem worker_step_effect (h : HttpClient) (env : Env) (now : Int) (conf : Models.Request)
    (i : Nat) (net : Net) (s s' : State) (hi : s.Inv env h now conf)
    (hstep : step env (.worker i net) s = some s') :
    (s.cancelled = true → s'.world = s.world) ∧
    (s.cancelled = false →
      s'.world =
        (({ h with startTime := now } : HttpClient).do_ env net
          (attemptOf env conf s.closure.headers).method
          (attemptOf env conf s.closure.headers).url
          (attemptOf env conf s.closure.headers).body
          (attemptOf env conf s.closure.headers).headers s.world).2 ∧
      s'.world.calls = s.world.calls ++ [attemptOf env conf s.closure.headers]) := by
  obtain ⟨wk, _, _, _, hs'⟩ := step_worker env s s' i net hstep
  subst hs'
  refine ⟨fun hc => ?_, fun hc => ?_⟩
  · show (workerIter s.h env s.closure s.cancelled net s.world).2 = s.world
    rw [hc, workerIter_cancelled]
  · have hw : (workerIter s.h env s.closure s.cancelled net s.world).2 =
        (({ h with startTime := now } : HttpClient).do_ env net
          (attemptOf env conf s.closure.headers).method
          (attemptOf env conf s.closure.headers).url
          (attemptOf env conf s.closure.headers).body
          (attemptOf env conf s.closure.headers).headers s.world).2 := by
      rw [hc, workerIter_live, hi.sameConf, hi.sameBody, hi.client]
      by_cases hm : conf.Method = "GET" <;> simp [attemptOf, hm]
    refine ⟨hw, ?_⟩
    show (workerIter s.h env s.closure s.cancelled net s.world).2.calls = _
    rw [hw, do_calls]

/-- The spawning goroutine can run its loop body `k` times in a row as long as
`j + k` stays within `numOfClient`. -/
theorem run_spawns (env : Env) (k : Nat) : ∀ (s : State), s.panicked = false →
    s.spawnerDone = false → s.j + k ≤ s.numOfClient →
    ∃ s', run env (List.replicate k Action.spawn) s = some s' ∧
      s'.workers.length = s.workers.length + k ∧ s'.j = s.j + k ∧
      s'.spawnerDone = false ∧ s'.panicked = false ∧ s'.numOfClient = s.numOfClient := by
  induction k with
  | zero =>
    intro s hp hsp _
    exact ⟨s, by simp [run], by simp, by simp, hsp, hp, rfl⟩
  | succ k ih =>
    intro s hp hsp hle
    have hlt : s.j < s.numOfClient := by omega
    have hst : step env Action.spawn s =
        some { s with workers := s.workers ++ [⟨WorkerStatus.Running, 0⟩], j := s.j + 1 } := by
      simp [step, hp, hsp, hlt]
    obtain ⟨s', hrun, hlen, hj, hsp', hp', hn'⟩ :=
      ih { s with workers := s.workers ++ [⟨WorkerStatus.Running, 0⟩], j := s.j + 1 } hp hsp
        (by show s.j + 1 + (k : Int) ≤ s.numOfClient; push_cast at hle; omega)
    refine ⟨s', ?_, ?_, ?_, hsp', hp', hn'⟩
    · simp only [List.replicate_succ, run, hst, Option.bind_some]
      exact hrun
    · rw [hlen]
      show (s.workers ++ [_]).length + k = _
      rw [List.length_append, List.length_singleton]
      omega
    · rw [hj]
      show s.j + 1 + (k : Int) = _
      push_cast
      omega

/-! ## The worker loop and cancellation -/

/-- C7 (as the code has it): the worker loop checks the cancellation signal at
the start of every iteration. An iteration that begins with the context
cancelled leaves the loop and changes nothing in the world (no request is
issued). An iteration that begins with the context not cancelled stays in the
loop and makes exactly one call of the request executor, with the arguments
the method selects; its whole effect on the world is that of this one call of
`do`: two notifications, and one request handed to the HTTP client when
`http.NewRequest` builds it, none when it does not. In a run, a step of a
running worker does the one or the other according to `cancelled`; a worker
that has left its loop can take no further step, and under every schedule it
stays exited with the same number of calls made. -/
theorem worker_loop_observes_cancellation (env : Env) :
    (∀ (h : HttpClient) (c : Closure) (net : Net) (w : World),
      workerIter h env c true net w = (WorkerStatus.Exited, w)) ∧
    (∀ (h : HttpClient) (c : Closure) (net : Net) (w : World),
      let a : DoArgs :=
        if c.conf.Method = "GET" then ⟨"GET", c.conf.URL, [], c.headers⟩
        else ⟨c.conf.Method, c.conf.URL, c.body, c.headers⟩
      let r := workerIter h env c false net w
      r.1 = WorkerStatus.Running ∧
      r.2 = (h.do_ env net a.method a.url a.body a.headers w).2 ∧
      r.2.calls = w.calls ++ [a] ∧
      r.2.sent = w.sent ++
        (match env.NewRequest a.method a.url with
         | none =>
           [⟨if a.method = "" then "GET" else a.method, a.url, a.body,
             a.headers.map (fun kv => (env.CanonicalMIMEHeaderKey kv.1, kv.2))⟩]
         | some _ => []) ∧
      r.2.notified.length = w.notified.length + 2) ∧
    (∀ (s : State) (i : Nat) (wk : Worker) (net : Net), s.panicked = false →
      s.workers[i]? = some wk → wk.status = WorkerStatus.Running →
      ∃ s', step env (.worker i net) s = some s' ∧
        s'.world = (workerIter s.h env s.closure s.cancelled net s.world).2 ∧
        (s.cancelled = true →
          s'.workers[i]? = some ⟨WorkerStatus.Exited, wk.issued⟩ ∧ s'.world = s.world) ∧
        (s.cancelled = false →
          s'.workers[i]? = some ⟨WorkerStatus.Running, wk.issued + 1⟩)) ∧
    (∀ (s : State) (i k : Nat) (net : Net),
      s.workers[i]? = some ⟨WorkerStatus.Exited, k⟩ → step env (.worker i net) s = none) ∧
    (∀ (s s' : State) (i k : Nat) (acts : List Action),
      s.workers[i]? = some ⟨WorkerStatus.Exited, k⟩ → run env acts s = some s' →
      s'.workers[i]? = some ⟨WorkerStatus.Exited, k⟩) := by
  refine ⟨fun h c net w => workerIter_cancelled h env c net w, ?_, ?_, ?_, ?_⟩
  · intro h c net w
    dsimp only
    by_cases hm : c.conf.Method = "GET"
    · obtain ⟨t, _, hn⟩ := do_notified h env net "GET" c.conf.URL [] c.headers w
      simp [hm, workerIter_live, do_calls, do_sent, requestOf, hn]
    · obtain ⟨t, _, hn⟩ := do_notified h env net c.conf.Method c.conf.URL c.body c.headers w
      simp [hm, workerIter_live, do_calls, do_sent, requestOf, hn]
  · intro s i wk net hp hwk hrun
    obtain ⟨s', hstep⟩ := step_worker_enabled env s i net wk hp hwk hrun
    obtain ⟨wk', hwk', _, _, hs'⟩ := step_worker env s s' i net hstep
    rw [hwk] at hwk'
    injection hwk' with hwk'
    subst hwk'
    have hlt : i < s.workers.length := by
      rcases List.getElem?_eq_some.mp hwk with ⟨hlt, _⟩
      exact hlt
    refine ⟨s', hstep, by subst hs'; rfl, fun hc => ?_, fun hc => ?_⟩
    · subst hs'
      refine ⟨?_, ?_⟩
      · show (s.workers.set i _)[i]? = _
        rw [List.getElem?_set_self hlt, hc, workerIter_cancelled]
        simp
      · show (workerIter s.h env s.closure s.cancelled net s.world).2 = s.world
        rw [hc, workerIter_cancelled]
    · subst hs'
      show (s.workers.set i _)[i]? = _
      rw [List.getElem?_set_self hlt, hc, workerIter_live, do_calls]
      simp
  · intro s i k net hwk
    exact step_worker_exited env s i net k hwk
  · intro s s' i k acts hwk hrun
    exact run_exited_stays env acts s s' i k hwk hrun

/-- A worker of a GET run hands one request to the HTTP client while the
context is live, leaves its loop at the first iteration after cancellation,
and is then stuck: the next step of that worker cannot be taken. -/
theorem worker_loop_observes_cancellation_witness :
    ∃ s, (sampleClient.RunScen sampleEnv 0 false (sampleConf "GET" "http://test/ok" 1 .null)
        World.empty).bind
        (run sampleEnv [.spawn, .worker 0 sampleNet, .cancel, .worker 0 sampleNet]) = some s ∧
      s.workers = [⟨WorkerStatus.Exited, 1⟩] ∧
      s.world.sent = [⟨"GET", "http://test/ok", [], []⟩] ∧
      step sampleEnv (.worker 0 sampleNet) s = none :=
  ⟨_, rfl, rfl, rfl,
    (worker_loop_observes_cancellation sampleEnv).2.2.2.1 _ 0 1 sampleNet rfl⟩

/-- Against C7 as stated: an iteration that begins with the context not
cancelled need not issue a request. For the URL "::" `http.NewRequest` fails:
the worker, in its loop with the context live, calls the request executor
once, two metrics are notified, and no request is handed to the HTTP client. -/
theorem live_iteration_sends_no_request :
    ∃ s s', (sampleClient.RunScen sampleEnv 0 false (sampleConf "GET" "::" 1 .null)
        World.empty).bind (run sampleEnv [.spawn]) = some s ∧
      s.cancelled = false ∧ s.workers = [⟨WorkerStatus.Running, 0⟩] ∧ s.world.sent = [] ∧
      step sampleEnv (.worker 0 sampleNet) s = some s' ∧
      s'.workers = [⟨WorkerStatus.Running, 1⟩] ∧
      s'.world.calls = [⟨"GET", "::", [], []⟩] ∧
      s'.world.notified = [⟨".latency", 1⟩, ⟨".http_other_fail", 1⟩] ∧
      s'.world.sent = [] :=
  ⟨_, _, rfl, rfl, rfl, rfl, rfl, rfl, rfl, rfl, rfl⟩

/-! ## The request a worker issues -/

/-- C4 (as the code has it): in every run of `Manager`, `json.Marshal` has been
called on `conf.PostData` exactly once, before any worker was spawned and
whatever the method, and its bytes are the `body` the workers share. A worker
iteration that begins with the context not cancelled makes one call of `do`:
for the method GET with method GET and an empty body, whatever `conf.PostData`
is; for every other method with `conf.Method` and the bytes `json.Marshal`
returned. When `http.NewRequest` builds the request, the request handed to the
HTTP client has that body and that method, except that an empty `conf.Method`
gives a GET request, which then carries the serialized payload. -/
theorem worker_request_body_by_method (h : HttpClient) (env : Env) (now : Int)
    (cancelled : Bool) (receiver : ReceiverPc) (conf : Models.Request) (w : World)
    (s0 s s' : State) (acts : List Action) (i : Nat) (net : Net)
    (hs0 : h.Manager env now cancelled receiver conf w = some s0)
    (hrun : run env acts s0 = some s) (hlive : s.cancelled = false)
    (hstep : step env (.worker i net) s = some s') :
    s0.workers = [] ∧ s0.marshalled = [conf.PostData] ∧ s.marshalled = [conf.PostData] ∧
    s.closure.body = (env.Marshal conf.PostData).1 ∧
    h.GetRequestHeades conf.Headers = some s.closure.headers ∧
    (conf.Method = "GET" →
      s'.world.calls = s.world.calls ++ [⟨"GET", conf.URL, [], s.closure.headers⟩] ∧
      s'.world.sent = s.world.sent ++
        (match env.NewRequest "GET" conf.URL with
         | none =>
           [⟨"GET", conf.URL, [],
             s.closure.headers.map (fun kv => (env.CanonicalMIMEHeaderKey kv.1, kv.2))⟩]
         | some _ => [])) ∧
    (conf.Method ≠ "GET" →
      s'.world.calls = s.world.calls ++
        [⟨conf.Method, conf.URL, (env.Marshal conf.PostData).1, s.closure.headers⟩] ∧
      s'.world.sent = s.world.sent ++
        (match env.NewRequest conf.Method conf.URL with
         | none =>
           [⟨if conf.Method = "" then "GET" else conf.Method, conf.URL,
             (env.Marshal conf.PostData).1,
             s.closure.headers.map (fun kv => (env.CanonicalMIMEHeaderKey kv.1, kv.2))⟩]
         | some _ => [])) := by
  have hi0 := manager_inv h env now cancelled receiver conf w s0 hs0
  have hi := run_inv h env now conf acts s0 s hi0 hrun
  have heff := (worker_step_effect h env now conf i net s s' hi hstep).2 hlive
  have hw0 : s0.workers = [] :=
    ((manager_start h env now cancelled receiver conf w).2 s0 hs0).1
  refine ⟨hw0, hi0.marshalled, hi.marshalled, hi.sameBody, hi.sameHeaders,
    fun hm => ?_, fun hm => ?_⟩
  · refine ⟨by rw [heff.2]; simp [attemptOf, hm], ?_⟩
    rw [heff.1, do_sent]
    simp [attemptOf, requestOf, hm]
  · refine ⟨by rw [heff.2]; simp [attemptOf, hm], ?_⟩
    rw [heff.1, do_sent]
    simp [attemptOf, requestOf, hm]

/-- A GET run with a text payload and a POST run with the payload `null`: the
GET worker attempts and sends a request with an empty body, the POST worker
one with the four bytes of the word null. -/
theorem worker_request_body_by_method_witness :
    (∃ s0 s s', sampleClient.Manager sampleEnv 0 false .Selecting
        (sampleConf "GET" "http://test/ok" 1 (.text "payload")) World.empty = some s0 ∧
      run sampleEnv [.spawn] s0 = some s ∧
      step sampleEnv (.worker 0 sampleNet) s = some s' ∧
      s'.world.sent = [⟨"GET", "http://test/ok", [], []⟩]) ∧
    (∃ s0 s s', sampleClient.Manager sampleEnv 0 false .Selecting
        (sampleConf "POST" "http://test/ok" 1 .null) World.empty = some s0 ∧
      run sampleEnv [.spawn] s0 = some s ∧
      step sampleEnv (.worker 0 sampleNet) s = some s' ∧
      s'.world.sent = [⟨"POST", "http://test/ok", [110, 117, 108, 108], []⟩]) :=
  ⟨⟨_, _, _, rfl, rfl, rfl,
     ((worker_request_body_by_method sampleClient sampleEnv 0 false .Selecting
        (sampleConf "GET" "http://test/ok" 1 (.text "payload")) World.empty _ _ _ [.spawn] 0
        sampleNet rfl rfl rfl rfl).2.2.2.2.2.1 rfl).2⟩,
   ⟨_, _, _, rfl, rfl, rfl,
     ((worker_request_body_by_method sampleClient sampleEnv 0 false .Selecting
        (sampleConf "POST" "http://test/ok" 1 .null) World.empty _ _ _ [.spawn] 0
        sampleNet rfl rfl rfl rfl).2.2.2.2.2.2 (by decide)).2⟩⟩

/-- Against C4 as stated: for the method GET `Manager` does serialize
`conf.PostData`. The run of a GET configuration with the payload "payload"
starts with one call of `json.Marshal`, on that payload; so it is not the case
that a GET run never serializes its PostData. And a method other than GET need
not be the method of the request: for the empty method the worker sends a GET
request whose body is the serialized payload. -/
theorem get_run_marshals_postdata :
    (∃ s0, sampleClient.Manager sampleEnv 0 false .Selecting
        (sampleConf "GET" "http://test/ok" 1 (.text "payload")) World.empty = some s0 ∧
      s0.marshalled = [.text "payload"]) ∧
    ¬ (∀ conf : Models.Request, conf.Method = "GET" →
        ∀ s0, sampleClient.Manager sampleEnv 0 false .Selecting conf World.empty = some s0 →
          s0.marshalled = []) ∧
    (∃ s, (sampleClient.RunScen sampleEnv 0 false
        (sampleConf "" "http://test/ok" 1 (.text "payload")) World.empty).bind
        (run sampleEnv [.spawn, .worker 0 sampleNet]) = some s ∧
      s.world.sent =
        [⟨"GET", "http://test/ok", [34, 112, 97, 121, 108, 111, 97, 100, 34], []⟩]) := by
  refine ⟨⟨_, rfl, rfl⟩, fun hall => ?_, ⟨_, rfl, rfl⟩⟩
  have hnil := hall (sampleConf "GET" "http://test/ok" 1 (.text "payload")) rfl _ rfl
  exact List.cons_ne_nil _ _ hnil

/-! ## Spawning and joining the workers -/

/-- C8 (as the code has it): let `Clients = n ≥ 1` be a count on which
`wg.Add` does not panic (its low 32 bits, read as an `int32`, are not
negative: every `n < 2^31` is such) and `conf.Headers` a value on which
`GetRequestHeades` does not panic. Then `Manager` starts with no worker; its
spawning goroutine can run its loop body `n` times and then leaves the loop,
at which point there are exactly `n` workers and no further one can be
spawned. In every run there are never more than `n` workers, there are exactly
`n` once the spawning goroutine has left its loop, and until then that
goroutine can always take its next step. All workers share one closure (the
configuration, the headers and the precomputed body), and what a live
iteration of a worker does, one call of `do` with the arguments the method
selects, does not depend on which worker it is. -/
theorem manager_spawns_exactly_clients (h : HttpClient) (env : Env) (now : Int)
    (cancelled : Bool) (receiver : ReceiverPc) (conf : Models.Request) (w : World)
    (n : Nat) (hdrs : Headers) (hn : 1 ≤ n) (hc : conf.Clients = n)
    (hw : 0 ≤ wrapInt32 conf.Clients)
    (hh : h.GetRequestHeades conf.Headers = some hdrs) :
    (∃ s0, h.Manager env now cancelled receiver conf w = some s0) ∧
    ∀ s0, h.Manager env now cancelled receiver conf w = some s0 →
      s0.workers = [] ∧
      (∃ s, run env (List.replicate n Action.spawn ++ [Action.spawnerDone]) s0 = some s ∧
        s.workers.length = n ∧ s.spawnerDone = true ∧ step env Action.spawn s = none) ∧
      (∀ (acts : List Action) (s : State), run env acts s0 = some s →
        s.workers.length ≤ n ∧
        (s.spawnerDone = true → s.workers.length = n) ∧
        (s.spawnerDone = false →
          step env Action.spawn s ≠ none ∨ step env Action.spawnerDone s ≠ none) ∧
        s.closure = ⟨conf, hdrs, (env.Marshal conf.PostData).1⟩ ∧
        ∀ (i : Nat) (net : Net) (s' : State), s.cancelled = false →
          step env (.worker i net) s = some s' →
          s'.world =
            (({ h with startTime := now } : HttpClient).do_ env net
              (if conf.Method = "GET" then "GET" else conf.Method) conf.URL
              (if conf.Method = "GET" then [] else (env.Marshal conf.PostData).1) hdrs
              s.world).2 ∧
          s'.world.calls = s.world.calls ++
            [if conf.Method = "GET" then ⟨"GET", conf.URL, [], hdrs⟩
             else ⟨conf.Method, conf.URL, (env.Marshal conf.PostData).1, hdrs⟩]) := by
  refine ⟨(manager_start h env now cancelled receiver conf w).1 hdrs hh hw, fun s0 hs0 => ?_⟩
  obtain ⟨hw0, hj0, hsp0, hp0, hnum0, _⟩ :=
    (manager_start h env now cancelled receiver conf w).2 s0 hs0
  have hi0 := manager_inv h env now cancelled receiver conf w s0 hs0
  refine ⟨hw0, ?_, ?_⟩
  · obtain ⟨s1, hrun1, hlen, hj, hsp, hp, hnum⟩ := run_spawns env n s0 hp0 hsp0
      (by rw [hj0, hnum0, hc]; omega)
    have hj1 : s1.j = conf.Clients := by
      rw [hj, hj0, hc]
      omega
    have hnum1 : s1.numOfClient = conf.Clients := by rw [hnum, hnum0]
    have hnlt : ¬ s1.j < s1.numOfClient := by rw [hj1, hnum1]; omega
    have hlen1 : s1.workers.length = n := by rw [hlen, hw0]; simp
    cases hadd : WaitGroup.Add s1.wg (-1) with
    | none =>
      refine ⟨{ s1 with spawnerDone := true, wg := wrapInt32 (s1.wg + -1), panicked := true },
        ?_, hlen1, rfl, ?_⟩
      · rw [run_append, hrun1]
        simp [run, step, hp, hsp, hnlt, hadd]
      · simp [step]
    | some v =>
      refine ⟨{ s1 with spawnerDone := true, wg := v }, ?_, hlen1, rfl, ?_⟩
      · rw [run_append, hrun1]
        simp [run, step, hp, hsp, hnlt, hadd]
      · simp [step]
  · intro acts s hrun
    have hi := run_inv h env now conf acts s0 s hi0 hrun
    have hjle : s.j ≤ conf.Clients := by
      rcases hi.jhi with hle | hz
      · exact hle
      · rw [hz, hc]; omega
    have hlen : (s.workers.length : Int) ≤ n := by
      rw [hi.workers, ← hc]
      exact hjle
    have hcl : s.closure = ⟨conf, hdrs, (env.Marshal conf.PostData).1⟩ := by
      have h1 := hi.sameConf
      have h2 := hi.sameHeaders
      have h3 := hi.sameBody
      rw [hh] at h2
      injection h2 with h2
      cases hcs : s.closure with
      | mk c hd b =>
        rw [hcs] at h1 h2 h3
        simp only at h1 h2 h3
        rw [h1, ← h2, h3]
    refine ⟨by exact_mod_cast hlen, fun hsp => ?_, fun hsp => ?_, hcl, ?_⟩
    · have hnl := hi.spawned hsp
      have h2 : (s.workers.length : Int) = n := by
        rw [hi.workers, ← hc]
        omega
      exact_mod_cast h2
    · have hp : s.panicked = false := by
        cases hpp : s.panicked with
        | false => rfl
        | true =>
          have := hi.panickedDone hpp
          rw [hsp] at this
          exact absurd this (by decide)
      by_cases hlt : s.j < s.numOfClient
      · left
        simp [step, hp, hsp, hlt]
      · right
        cases hadd : WaitGroup.Add s.wg (-1) <;> simp [step, hp, hsp, hlt, hadd]
    · intro i net s' hlive hstep
      have heff := (worker_step_effect h env now conf i net s s' hi hstep).2 hlive
      have hhd : s.closure.headers = hdrs := by rw [hcl]
      rw [hhd] at heff
      refine ⟨?_, ?_⟩
      · rw [heff.1]
        by_cases hm : conf.Method = "GET" <;> simp [attemptOf, hm]
      · rw [heff.2]
        by_cases hm : conf.Method = "GET" <;> simp [attemptOf, hm]

/-- A run for three clients: after the schedule of three spawns and the exit
of the spawning goroutine there are exactly three workers. -/
theorem manager_spawns_exactly_clients_witness :
    ∃ s0 s, sampleClient.Manager sampleEnv 0 false .Selecting
        (sampleConf "GET" "http://test/ok" 3 .null) World.empty = some s0 ∧
      run sampleEnv [.spawn, .spawn, .spawn, .spawnerDone] s0 = some s ∧
      s.workers.length = 3 ∧ s.workers.length ≤ 3 :=
  ⟨_, _, rfl, rfl, rfl,
    (((manager_spawns_exactly_clients sampleClient sampleEnv 0 false .Selecting
        (sampleConf "GET" "http://test/ok" 3 .null) World.empty 3 [] (by decide) rfl
        (by decide) rfl).2 _ rfl).2.2
      [.spawn, .spawn, .spawn, .spawnerDone] _ rfl).1⟩

/-- Against C8 as stated: for `Clients = 2^31`, which is at least 1, the
counter of the wait group would be negative and `wg.Add` panics; and for
`Clients = 1` with a `Headers` map that holds a value that is not a string,
`GetRequestHeades` panics. In both cases `Manager` ends before its spawning
goroutine is started: no worker is spawned, not `Clients` of them. -/
theorem manager_panics_before_spawning :
    (1 : Int) ≤ 2147483648 ∧
    sampleClient.Manager sampleEnv 0 false .Selecting
      (sampleConf "GET" "http://test/ok" 2147483648 .null) World.empty = none ∧
    sampleClient.Manager sampleEnv 0 false .Selecting
      { URL := "http://test/ok", Method := "GET", Clients := 1,
        Headers := .map [(.str "Accept", .other)], PostData := .null } World.empty = none :=
  ⟨by decide, rfl, rfl⟩

/-- C5: with `Clients = 1` the join does not wait for the worker. The wait
group is set to 1 and the spawning goroutine calls `wg.Done()` once after it
has spawned the worker, so `wg.Wait()` returns and `Manager` sends on `done`
and returns while the context is not cancelled and the one worker is still in
its loop; that worker goes on to issue a request afterwards. -/
theorem manager_reports_completion_with_worker_running :
    ∃ s s', (sampleClient.RunScen sampleEnv 0 false (sampleConf "GET" "http://test/ok" 1 .null)
        World.empty).bind (run sampleEnv [.spawn, .spawnerDone, .wait, .send]) = some s ∧
      s.wg = 0 ∧ s.manager = ManagerPc.Returned ∧ s.done = [none] ∧ s.cancelled = false ∧
      s.workers = [⟨WorkerStatus.Running, 0⟩] ∧ s.someRunning = true ∧
      step sampleEnv (.worker 0 sampleNet) s = some s' ∧
      s'.workers = [⟨WorkerStatus.Running, 1⟩] ∧
      s'.world.sent = [⟨"GET", "http://test/ok", [], []⟩] :=
  ⟨_, _, rfl, rfl, rfl, rfl, rfl, rfl, rfl, rfl, rfl, rfl⟩

/-- C6: with `Clients ≥ 2` the join never completes. `wg.Add` sets the counter
to the `int32` of the low 32 bits of `Clients`, which is `Clients` itself for
every `Clients < 2^31`, and only the spawning goroutine ever calls
`wg.Done()`, once. So whenever that counter is at least 2, in every state of
every run the counter is at least 1, `Manager` is still blocked in
`wg.Wait()`, nothing was sent on `done`, and neither the return of `wg.Wait()`
nor the send can happen, also when all workers have stopped after
cancellation. -/
theorem manager_never_completes_with_two_clients (h : HttpClient) (env : Env) (now : Int)
    (cancelled : Bool) (receiver : ReceiverPc) (conf : Models.Request) (w : World)
    (s0 s : State) (acts : List Action) (hc : 2 ≤ wrapInt32 conf.Clients)
    (hs0 : h.Manager env now cancelled receiver conf w = some s0)
    (hrun : run env acts s0 = some s) :
    1 ≤ s.wg ∧ s.manager = ManagerPc.Waiting ∧ s.done = [] ∧
    step env Action.wait s = none ∧ step env Action.send s = none := by
  have hi := run_inv h env now conf acts s0 s
    (manager_inv h env now cancelled receiver conf w s0 hs0) hrun
  have hm : s.manager = ManagerPc.Waiting := by
    by_contra hne
    have := hi.manager hne
    omega
  have hwg : 1 ≤ s.wg := by
    rw [hi.wg]
    split <;> omega
  have hwg0 : ¬ s.wg = 0 := by omega
  refine ⟨hwg, hm, hi.notDone (by rw [hm]; decide), ?_, ?_⟩
  · unfold step
    split
    · rfl
    · simp [hwg0]
  · unfold step
    split
    · rfl
    · simp [hm]

/-- A run for two clients in which both workers were spawned, the context was
cancelled and both workers have left their loops: the wait-group counter is 1
and `Manager` is still waiting. -/
theorem manager_never_completes_with_two_clients_witness :
    ∃ s0 s, sampleClient.RunScen sampleEnv 0 false (sampleConf "GET" "http://test/ok" 2 .null)
        World.empty = some s0 ∧
      run sampleEnv [.spawn, .spawn, .spawnerDone, .worker 0 sampleNet, .cancel,
        .worker 0 sampleNet, .worker 1 sampleNet] s0 = some s ∧
      s.workers.length = 2 ∧ s.allExited = true ∧ s.cancelled = true ∧ s.wg = 1 ∧
      (1 ≤ s.wg ∧ s.manager = ManagerPc.Waiting ∧ s.done = [] ∧
        step sampleEnv Action.wait s = none ∧ step sampleEnv Action.send s = none) :=
  ⟨_, _, rfl, rfl, rfl, rfl, rfl, rfl,
    manager_never_completes_with_two_clients sampleClient sampleEnv 0 false .Selecting
      (sampleConf "GET" "http://test/ok" 2 .null) World.empty _ _
      [.spawn, .spawn, .spawnerDone, .worker 0 sampleNet, .cancel, .worker 0 sampleNet,
        .worker 1 sampleNet] (by decide) rfl rfl⟩

/-! ## Malformed configurations -/

/-- C9 (as the code has it): `Manager` validates neither the URL, the method
nor the payload. Let `Clients = n ≥ 0` be a count on which `wg.Add` does not
panic (every `n < 2^31` is such) and `conf.Headers` a value on which
`GetRequestHeades` does not panic. Then, whatever `http.NewRequest` and
`json.Marshal` say about the configuration, `Manager` starts, keeps the bytes
`json.Marshal` returned and drops its error, and its spawning goroutine spawns
`n` workers. In every run the only value ever sent on `done` is nil, and an
iteration of a worker that begins with the context not cancelled and whose
request cannot be built makes one attempt that hands nothing to the HTTP
client and notifies `latency` once and `otherFail` with +1. -/
theorem malformed_config_still_runs (h : HttpClient) (env : Env) (now : Int)
    (cancelled : Bool) (receiver : ReceiverPc) (conf : Models.Request) (w : World)
    (n : Nat) (hdrs : Headers) (hc : conf.Clients = n) (hw : 0 ≤ wrapInt32 conf.Clients)
    (hh : h.GetRequestHeades conf.Headers = some hdrs) :
    (∃ s0, h.Manager env now cancelled receiver conf w = some s0) ∧
    ∀ s0, h.Manager env now cancelled receiver conf w = some s0 →
      s0.closure.body = (env.Marshal conf.PostData).1 ∧
      (∃ s, run env (List.replicate n Action.spawn) s0 = some s ∧ s.workers.length = n) ∧
      (∀ (acts : List Action) (s : State), run env acts s0 = some s →
        (∀ v ∈ s.done, v = none) ∧
        ∀ (i : Nat) (net : Net) (s' : State) (err : Error), s.cancelled = false →
          env.NewRequest (if conf.Method = "GET" then "GET" else conf.Method) conf.URL
            = some err →
          step env (.worker i net) s = some s' →
          s'.world.sent = s.world.sent ∧
          s'.world.notified = s.world.notified ++
            [⟨h.title.latency, Microseconds net.diff⟩, ⟨h.title.otherFail, 1⟩] ∧
          s'.world.calls = s.world.calls ++
            [if conf.Method = "GET" then ⟨"GET", conf.URL, [], hdrs⟩
             else ⟨conf.Method, conf.URL, (env.Marshal conf.PostData).1, hdrs⟩]) := by
  refine ⟨(manager_start h env now cancelled receiver conf w).1 hdrs hh hw, fun s0 hs0 => ?_⟩
  obtain ⟨hw0, hj0, hsp0, hp0, hnum0, _⟩ :=
    (manager_start h env now cancelled receiver conf w).2 s0 hs0
  have hi0 := manager_inv h env now cancelled receiver conf w s0 hs0
  refine ⟨hi0.sameBody, ?_, ?_⟩
  · obtain ⟨s1, hrun1, hlen, _⟩ := run_spawns env n s0 hp0 hsp0
      (by rw [hj0, hnum0, hc]; omega)
    exact ⟨s1, hrun1, by rw [hlen, hw0]; simp⟩
  · intro acts s hrun
    have hi := run_inv h env now conf acts s0 s hi0 hrun
    refine ⟨hi.done, ?_⟩
    intro i net s' err hlive hreq hstep
    have heff := (worker_step_effect h env now conf i net s s' hi hstep).2 hlive
    have hhd : s.closure.headers = hdrs := by
      have h2 := hi.sameHeaders
      rw [hh] at h2
      injection h2 with h2
      exact h2.symm
    rw [hhd] at heff
    have hreq' : env.NewRequest (attemptOf env conf hdrs).method (attemptOf env conf hdrs).url
        = some err := by
      by_cases hm : conf.Method = "GET"
      · simpa [attemptOf, hm] using hreq
      · simpa [attemptOf, hm] using hreq
    rw [heff.1, do_unbuilt _ env net _ _ _ _ s.world err hreq']
    by_cases hm : conf.Method = "GET" <;> simp [attemptOf, hm]

/-- A configuration whose URL cannot be parsed and whose payload cannot be
serialized, for one client: `Manager` starts, spawns its worker, and the
worker's attempt notifies `latency` and `otherFail`. -/
theorem malformed_config_still_runs_witness :
    ∃ s0 s s', sampleClient.Manager sampleEnv 0 false .Selecting
        (sampleConf "POST" "::" 1 .unsupported) World.empty = some s0 ∧
      run sampleEnv [.spawn] s0 = some s ∧
      step sampleEnv (.worker 0 sampleNet) s = some s' ∧
      s'.world.notified = [⟨".latency", 1⟩, ⟨".http_other_fail", 1⟩] :=
  ⟨_, _, _, rfl, rfl, rfl,
    (((((malformed_config_still_runs sampleClient sampleEnv 0 false .Selecting
        (sampleConf "POST" "::" 1 .unsupported) World.empty 1 [] rfl (by decide) rfl).2 _ rfl).2.2
      [.spawn] _ rfl).2 0 sampleNet _ "missing protocol scheme" rfl rfl rfl).2.1)⟩

/-- Against C9 as stated: a malformed configuration does not fail fast. For
the URL "::" (which `http.NewRequest` rejects) and a payload `json.Marshal`
rejects, `RunScen` starts the run, a worker loop is spawned, that worker makes
a request attempt and two metrics are notified, and no error has reached the
caller. -/
theorem malformed_config_spawns_and_notifies :
    sampleEnv.NewRequest "POST" "::" = some "missing protocol scheme" ∧
    (sampleEnv.Marshal .unsupported).2 = some "json: unsupported type" ∧
    ∃ s, (sampleClient.RunScen sampleEnv 0 false (sampleConf "POST" "::" 1 .unsupported)
        World.empty).bind (run sampleEnv [.spawn, .worker 0 ⟨1500, .error "unused"⟩]) = some s ∧
      s.workers.length = 1 ∧
      s.world.calls = [⟨"POST", "::", [], []⟩] ∧
      s.world.notified = [⟨".latency", 1⟩, ⟨".http_other_fail", 1⟩] ∧
      s.done = [] :=
  ⟨rfl, rfl, _, rfl, rfl, rfl, rfl, rfl⟩

end HttpRequest
